import Mathlib

/-!
Verification of the street-routing-bc graph-construction pipeline
(`factory_analysis.py`) and parallel batch routing engine
(`production_simulation.py`) against its natural-language specification.

The Python code is shallowly embedded: edge attribute dictionaries become
association lists over a scalar value type, floats become exact rationals
with an explicit decimal-rounding function mirroring Python's `round`,
and the worker pool's nondeterministic completion order becomes an
explicit permutation argument to the fan-in loop.
-/

namespace StreetRouting

/-- Scalar attribute value as stored in a row / edge attribute dictionary:
a number (Python float, embedded as an exact rational), a string, or a
polyline geometry (ordered coordinate list of a shapely `LineString`). -/
inductive SVal where
  | num (q : ℚ)
  | str (s : String)
  | geom (coords : List (ℚ × ℚ))
deriving DecidableEq, Repr

/-- Attribute value: a scalar, or a list of scalars.  List values arise only
when the external intersection-consolidation step merges parallel edges and
collects their attribute values into lists; the pipeline's `get_val` helper
unwraps them. -/
inductive Val where
  | scalar (s : SVal)
  | vlist (vs : List SVal)
deriving DecidableEq, Repr

/-- Shorthand for a numeric attribute value. -/
def Val.n (q : ℚ) : Val := Val.scalar (SVal.num q)

/-- Shorthand for a string attribute value. -/
def Val.s (s : String) : Val := Val.scalar (SVal.str s)

/-- Shorthand for a geometry attribute value. -/
def Val.g (cs : List (ℚ × ℚ)) : Val := Val.scalar (SVal.geom cs)

/-- An edge (or row) attribute dictionary, embedded as an association list in
insertion order, mirroring a Python `dict`. -/
abbrev AttrMap := List (String × Val)

/-- Dictionary lookup: `data.get(k)` / `k in data`. -/
def dictGet (m : AttrMap) (k : String) : Option Val :=
  (m.find? (fun p => p.1 = k)).map Prod.snd

/-- Dictionary write `m[k] = v`: replaces the value in place if the key is
present (Python dicts keep insertion position on overwrite), appends
otherwise. -/
def dictSet (m : AttrMap) (k : String) (v : Val) : AttrMap :=
  if m.any (fun p => p.1 = k) then
    m.map (fun p => if p.1 = k then (k, v) else p)
  else m ++ [(k, v)]

/-- Dictionary update `m.update(new)`: write every entry of `new` into `m`. -/
def dictUpdate (m new : AttrMap) : AttrMap :=
  new.foldl (fun acc p => dictSet acc p.1 p.2) m

/-- Embeds Python `str.title()` (ASCII): an alphabetic character is
uppercased when the previous character was not alphabetic, lowercased
otherwise. -/
def pyTitleAux : Bool → List Char → List Char
  | _, [] => []
  | prevAlpha, c :: cs =>
    if c.isAlpha then
      (if prevAlpha then c.toLower else c.toUpper) :: pyTitleAux true cs
    else
      c :: pyTitleAux false cs

/-- Python `str(x).title()` on a string. -/
def pyTitle (s : String) : String := ⟨pyTitleAux false s.data⟩

/-- Embeds Python `str(v)` to the extent the pipeline observes it: strings
render as themselves; the renderings of numbers and geometries are opaque
placeholders (the code only ever compares them against road-class /
surface / direction words, which no number or geometry renders to). -/
def pyStr : SVal → String
  | SVal.str s => s
  | SVal.num _ => "<num>"
  | SVal.geom _ => "<geom>"

/-- Embeds Python `float(v)` where the pipeline applies it: numbers are
themselves.  On the pipeline's data the coerced attributes (`length_m`,
`safe_speed`, `length`) are always numeric; a non-numeric value would raise
in Python and is mapped to 0 here (dead branch). -/
def toNum : SVal → ℚ
  | SVal.num q => q
  | _ => 0

/-- Whether `str(v).lower() == 'unknown'` (used by `get_val` to skip
unknown entries of a merged list value). -/
def isUnknownS (v : SVal) : Bool :=
  match v with
  | SVal.str s => s.toLower == "unknown"
  | _ => false

/-- Round half to even on an exact rational, the rounding mode of Python's
`round`. -/
def roundHalfEven (q : ℚ) : ℤ :=
  let f := ⌊q⌋
  let r := q - f
  if r < 1/2 then f
  else if r > 1/2 then f + 1
  else if f % 2 = 0 then f else f + 1

/-- Embeds Python `round(q, n)` (round half to even at `n` decimal places). -/
def pyRound (q : ℚ) (n : ℕ) : ℚ :=
  (roundHalfEven (q * 10 ^ n) : ℚ) / 10 ^ n

/-! ## Cost model: speed validation and defaults (factory_analysis.py, section 2.J) -/

/-- Class-based default speeds (`defaults` dict in factory_analysis.py);
`map(defaults).fillna(40)` sends any road class not in the table to 40. -/
def speedDefaults (c : String) : ℚ :=
  if c = "Freeway" then 90
  else if c = "Expressway" then 90
  else if c = "Arterial" then 60
  else if c = "Collector" then 50
  else if c = "Local" then 40
  else if c = "Resource" then 30
  else if c = "Ferry" then 10
  else if c = "Rapid Transit" then 0
  else 40

/-- Per-row speed validation and imputation (factory_analysis.py section J):
`SPEED = to_numeric(...).fillna(-1)`; speeds above 130 are reset to -1
(unknown); speeds strictly between 0 and 5 are raised to 10; the remaining
non-positive speeds are replaced by the road-class default
(`safe_speed = where(SPEED <= 0, default_speeds, SPEED)`). -/
def safe_speed (rawSpeed : Option ℚ) (roadclass : String) : ℚ :=
  let s := rawSpeed.getD (-1)
  let s1 := if s > 130 then -1 else s
  let s2 := if 0 < s1 ∧ s1 < 5 then 10 else s1
  if s2 ≤ 0 then speedDefaults roadclass else s2

/-! ## Cost model: the physics loop (factory_analysis.py, section 7) -/

/-- The `get_val` helper of the physics loop: read an attribute with a
default; if the value is a (consolidation-merged) list, return its first
entry whose string form is not 'unknown', else the list's first entry.
The source indexes `val[0]` directly, which presumes the list is nonempty;
the unreachable empty-list case returns the default here. -/
def get_val (data : AttrMap) (k : String) (default : SVal) : SVal :=
  match dictGet data k with
  | none => default
  | some (Val.scalar s) => s
  | some (Val.vlist vs) =>
    match vs.filter (fun x => ¬ isUnknownS x) with
    | c :: _ => c
    | [] => vs.headD default

/-- Direct numeric read `float(data[k])` of a known-present attribute.
A list value here would raise in Python (dead branch, mapped to 0). -/
def toNumV : Val → ℚ
  | Val.scalar s => toNum s
  | Val.vlist _ => 0

/-- Edge length used by the physics loop: the precomputed `length_m` if
present, else the geometry's planar length (`linelen` abstracts shapely's
`LineString.length`), else `float(get_val('length', 0))`. -/
def physicsLength (linelen : List (ℚ × ℚ) → ℚ) (data : AttrMap) : ℚ :=
  match dictGet data "length_m" with
  | some v => toNumV v
  | none =>
    match dictGet data "geometry" with
    | some (Val.scalar (SVal.geom cs)) => linelen cs
    | some _ => 0
    | none => toNum (get_val data "length" (SVal.num 0))

/-- Surfaces that trigger the 40% gravel penalty (`bad_surfaces`). -/
def badSurfaces : List String := ["Unpaved", "Loose", "Rough", "Gravel", "Dirt", "Earth"]

/-- Speed computed by the physics loop for one edge: base `safe_speed`
(default 50), 0.6 multiplier for an explicitly unpaved status or bad
surface, ferry/water override to 10, and the sanity floor
`if speed < 1: speed = 10.0`. -/
def physicsSpeed (data : AttrMap) : ℚ :=
  let speed0 := toNum (get_val data "safe_speed" (SVal.num 50))
  let status := pyStr (get_val data "PAVSTATUS" (SVal.str "Unknown"))
  let surface := pyStr (get_val data "PAVSURF" (SVal.str "Unknown"))
  let r_class := pyStr (get_val data "ROADCLASS" (SVal.str "Unknown"))
  let speed1 := if status = "Unpaved" ∨ surface ∈ badSurfaces then speed0 * (6/10) else speed0
  let speed2 := if r_class = "Ferry" ∨ surface = "Water" then 10 else speed1
  if speed2 < 1 then 10 else speed2

/-- Road class string the physics loop extracts for one edge. -/
def physicsRoadClass (data : AttrMap) : String :=
  pyStr (get_val data "ROADCLASS" (SVal.str "Unknown"))

/-- The attribute rewrite at the end of the physics loop: `data.clear()`
followed by exactly six writes — length, travel_time, speed_kph, and the
three audit metadata fields.  The ferry fixed wait of 30 minutes is added
to `time_min` after the distance-based time, before the final rounding. -/
def physicsAttrs (linelen : List (ℚ × ℚ) → ℚ) (data : AttrMap) : AttrMap :=
  let length := physicsLength linelen data
  let speed := physicsSpeed data
  let r_class := physicsRoadClass data
  let surface := pyStr (get_val data "PAVSURF" (SVal.str "Unknown"))
  let traffic_dir := pyStr (get_val data "TRAFFICDIR" (SVal.str "Unknown"))
  let time0 := ((length / 1000) / speed) * 60
  let time_min := if r_class = "Ferry" then time0 + 30 else time0
  [("length", Val.n (pyRound length 2)),
   ("travel_time", Val.n (pyRound time_min 3)),
   ("speed_kph", Val.n (pyRound speed 1)),
   ("ROADCLASS", Val.s r_class),
   ("PAVSURF", Val.s surface),
   ("TRAFFICDIR", Val.s traffic_dir)]

/-- Ferry fixed-wait bonus as the specification states it: 30 minutes
exactly when the edge's road class is 'Ferry', 0 otherwise. -/
def ferryBonus (data : AttrMap) : ℚ :=
  if physicsRoadClass data = "Ferry" then 30 else 0

/-! ## Directionality resolver (factory_analysis.py, section 5) -/

/-- Traffic-direction extraction of the directionality loop:
`data.get('TRAFFICDIR', 'Unknown')`, first element when the value is a
list (or `'Unknown'` when the list is empty), then `str(...).title()`. -/
def trafficDirOf (data : AttrMap) : String :=
  let v := (dictGet data "TRAFFICDIR").getD (Val.s "Unknown")
  let v2 :=
    match v with
    | Val.vlist vs => vs.headD (SVal.str "Unknown")
    | Val.scalar s => s
  pyTitle (pyStr v2)

/-- Reverse-edge attribute dictionary: a copy of `data` whose geometry, when
present, is rebuilt from the reversed coordinate list
(`LineString(coords[::-1])`).  A non-geometry value under the `'geometry'`
key would raise in Python (dead branch, left unchanged). -/
def reverseGeometry (data : AttrMap) : AttrMap :=
  match dictGet data "geometry" with
  | some (Val.scalar (SVal.geom cs)) => dictSet data "geometry" (Val.scalar (SVal.geom cs.reverse))
  | _ => data

/-- One directed edge emitted by the resolver: from-node, to-node,
disambiguation key, attributes. -/
abbrev DirEdge := ℕ × ℕ × ℕ × AttrMap

/-- Directionality resolution for one segment edge `(u, v, k, data)`:
bidirectional values (and any unrecognized value) emit the forward edge and
a reverse edge with reversed geometry; `Same Direction` / `Positive` emit
the forward edge only; `Opposite Direction` / `Negative` emit only the
`v→u` edge carrying `data` unchanged. -/
def resolveDirectionality (u v k : ℕ) (data : AttrMap) : List DirEdge :=
  let td := trafficDirOf data
  if td = "Both Directions" ∨ td = "Both" ∨ td = "Unknown" then
    [(u, v, k, data), (v, u, k, reverseGeometry data)]
  else if td = "Same Direction" ∨ td = "Positive" then
    [(u, v, k, data)]
  else if td = "Opposite Direction" ∨ td = "Negative" then
    [(v, u, k, data)]
  else
    [(u, v, k, data), (v, u, k, reverseGeometry data)]

/-! ## Topology builder and graph assembly (factory_analysis.py, sections 3 and 5) -/

/-- A segment after endpoint snapping: from-node id, to-node id, attribute
dictionary. -/
abbrev Segment := ℕ × ℕ × AttrMap

/-- Sequential disambiguation keys per ordered node pair
(`groupby(['u','v']).cumcount()`): each segment's key is the number of
earlier segments with the same `(u, v)`. -/
def assignKeys : List (ℕ × ℕ) → List Segment → List DirEdge
  | _, [] => []
  | seen, (u, v, d) :: rest =>
    (u, v, seen.count (u, v), d) :: assignKeys (seen ++ [(u, v)]) rest

/-- A directed multigraph as an insertion-ordered list of
`((u, v, key), attrs)` entries, mirroring a networkx `MultiDiGraph`'s edge
store. -/
abbrev Graph := List ((ℕ × ℕ × ℕ) × AttrMap)

/-- Embeds networkx `MultiDiGraph.add_edge(u, v, key, **attrs)`: if the
`(u, v, key)` triple already exists its attribute dictionary is updated in
place with the new attributes; otherwise the edge is appended. -/
def addEdge (g : Graph) (u v k : ℕ) (d : AttrMap) : Graph :=
  if g.any (fun e => e.1 = (u, v, k)) then
    g.map (fun e => if e.1 = (u, v, k) then (e.1, dictUpdate e.2 d) else e)
  else g ++ [((u, v, k), d)]

/-- Directionality loop applied to keyed edges: every emitted directed edge
is added to the accumulator graph with `add_edge`. -/
def addResolved (g : Graph) (e : DirEdge) : Graph :=
  (resolveDirectionality e.1 e.2.1 e.2.2.1 e.2.2.2).foldl
    (fun acc r => addEdge acc r.1 r.2.1 r.2.2.1 r.2.2.2) g

/-- Full assembly of the directed graph from snapped segments: cumcount key
assignment (section 3) followed by the directionality loop (section 5). -/
def buildDirectedGraph (segs : List Segment) : Graph :=
  (assignKeys [] segs).foldl addResolved []

/-- Total number of directed edges the directionality loop emits for the
keyed segments (before `add_edge` collisions can merge any of them). -/
def emittedEdgeCount (segs : List Segment) : ℕ :=
  ((assignKeys [] segs).map
    (fun e => (resolveDirectionality e.1 e.2.1 e.2.2.1 e.2.2.2).length)).sum

/-! ## Parallel-edge selection (production_simulation.py) -/

/-- Travel-time sort key `edges[k].get('travel_time', float('inf'))`,
embedded with `⊤` for the missing / non-numeric case. -/
def ttKey (d : AttrMap) : WithTop ℚ :=
  match dictGet d "travel_time" with
  | some (Val.scalar (SVal.num q)) => (q : WithTop ℚ)
  | _ => ⊤

/-- Embeds Python `min(xs, key=f)`: scan left to right, replacing the
current best only on a strictly smaller key, so the first element attaining
the minimum is returned; `none` on an empty list (Python raises). -/
def pyMin (f : α → WithTop ℚ) : List α → Option α
  | [] => none
  | x :: xs => some (xs.foldl (fun b y => if f y < f b then y else b) x)

/-- Parallel edges `G[u][v]` between an ordered node pair, as
`(key, attrs)` pairs in insertion order. -/
def edgesBetween (g : Graph) (u v : ℕ) : List (ℕ × AttrMap) :=
  (g.filter (fun e => e.1.1 = u ∧ e.1.2.1 = v)).map (fun e => (e.1.2.2, e.2))

/-- Representative-edge selection used by `calculate_chunk` and
`audit_route`: `min(edges, key=lambda k: edges[k].get('travel_time', inf))`. -/
def bestEdge (g : Graph) (u v : ℕ) : Option (ℕ × AttrMap) :=
  pyMin (fun p => ttKey p.2) (edgesBetween g u v)

/-! ## Batch routing engine (production_simulation.py, sections 4 and 5) -/

/-- Per-query result row: distance (km), time (minutes), node path. -/
structure RouteResult where
  dist : ℚ
  time : ℚ
  route : List ℕ
deriving DecidableEq, Repr

/-- Numeric attribute read with default, `float(data.get(k, 0))`. -/
def attrNum (d : AttrMap) (k : String) (default : ℚ) : ℚ :=
  match dictGet d k with
  | some v => toNumV v
  | none => default

/-- Per-route aggregation in `calculate_chunk`: over consecutive node pairs
of the route, pick the representative parallel edge and sum its length and
travel time; distance is reported in km (`d / 1000`). -/
def routeSummary (g : Graph) (route : List ℕ) : RouteResult :=
  let pairs := route.zip route.tail
  let dt := pairs.foldl
    (fun (acc : ℚ × ℚ) (uv : ℕ × ℕ) =>
      match bestEdge g uv.1 uv.2 with
      | some e => (acc.1 + attrNum e.2 "length" 0, acc.2 + attrNum e.2 "travel_time" 0)
      | none => acc)
    (0, 0)
  ⟨dt.1 / 1000, dt.2, route⟩

/-- A query: (origin node, destination node). -/
abbrev Query := ℕ × ℕ

/-- The worker body `calculate_chunk`: one shortest-path call for the whole
chunk (`spChunk` embeds `ox.shortest_path` on the list of queries, its
exception embedded as `Except.error`); on an exception the whole chunk's
routes become `None` (`routes = [None] * len(subset)`), and each non-null
route is summarized. -/
def calcChunk (g : Graph) (spChunk : List Query → Except Unit (List (Option (List ℕ))))
    (queries : List Query) : List (Option RouteResult) :=
  let routes :=
    match spChunk queries with
    | Except.error _ => queries.map (fun _ => none)
    | Except.ok rs => rs
  routes.map (fun r => r.map (routeSummary g))

/-- Number of fixed-size chunks `range(0, n, c)` produces for `n` queries. -/
def numChunks (c n : ℕ) : ℕ := (n + c - 1) / c

/-- The `k`-th contiguous index chunk `indices[k*c : k*c + c]`. -/
def chunkAt (c n k : ℕ) : List ℕ :=
  ((List.range n).drop (k * c)).take c

/-- Contiguous index chunks `[indices[i:i+c] for i in range(0, n, c)]`. -/
def chunkIdx (c n : ℕ) : List (List ℕ) :=
  (List.range (numChunks c n)).map (chunkAt c n)

/-- Query at an index (`trips_df.iloc`); out-of-range is dead. -/
def queryAt (qs : List Query) (i : ℕ) : Query := (qs[i]?).getD (0, 0)

/-- Index-addressed write-back of one worker's results
(`for i, idx in enumerate(idx_list): if dist is not nan: all_*[idx] = ...`):
null results are skipped, present results are written at the original query
index. -/
def writeBack (results : List (Option RouteResult)) (idxs : List ℕ)
    (vals : List (Option RouteResult)) : List (Option RouteResult) :=
  (idxs.zip vals).foldl
    (fun acc p =>
      match p.2 with
      | none => acc
      | some r => acc.set p.1 (some r))
    results

/-- One fan-in step: receive the `k`-th chunk's results and write them back
at the chunk's original query indices. -/
def chunkStep (g : Graph) (spChunk : List Query → Except Unit (List (Option (List ℕ))))
    (c : ℕ) (qs : List Query) (acc : List (Option RouteResult)) (k : ℕ) :
    List (Option RouteResult) :=
  match (chunkIdx c qs.length)[k]? with
  | none => acc
  | some idxs => writeBack acc idxs (calcChunk g spChunk (idxs.map (queryAt qs)))

/-- The fan-out/fan-in loop of section 5: results start as a pre-sized
all-null collection; chunks are processed in the arbitrary completion order
`ord` delivered by `imap_unordered`, each being written back at original
query indices. -/
def runBatch (g : Graph) (spChunk : List Query → Except Unit (List (Option (List ℕ))))
    (c : ℕ) (ord : List ℕ) (qs : List Query) : List (Option RouteResult) :=
  ord.foldl (chunkStep g spChunk c qs) (qs.map (fun _ => none))

/-- A chunk-level shortest-path call that never raises and answers each
query independently through `sp` (the deterministic per-query shortest-path
function; a no-path query answers `none`). -/
def okChunk (sp : Query → Option (List ℕ)) : List Query → Except Unit (List (Option (List ℕ))) :=
  fun l => Except.ok (l.map sp)

/-- A chunk-level shortest-path call that raises exactly when the chunk
contains a malformed query (`bad`), e.g. a node id absent from the graph,
and otherwise answers each query through `sp`. -/
def badChunk (sp : Query → Option (List ℕ)) (bad : Query → Bool) :
    List Query → Except Unit (List (Option (List ℕ))) :=
  fun l => if l.any bad then Except.error () else Except.ok (l.map sp)

/-- The deterministic per-query answer of the engine: shortest path via
`sp`, then route aggregation. -/
def answer (g : Graph) (sp : Query → Option (List ℕ)) (q : Query) : Option RouteResult :=
  (sp q).map (routeSummary g)

/-! ## Artifact purger and consolidation guard (factory_analysis.py, section 6) -/

/-- A multigraph together with its node list (for component counting). -/
structure MGraph where
  nodes : List ℕ
  edges : List ((ℕ × ℕ × ℕ) × AttrMap)
deriving DecidableEq, Repr

/-- Component labels: start with each node labelling itself, then for every
edge merge the endpoint labels by relabelling the whole map (a union-find
by full relabel, computing weakly-connected components). -/
def wccLabels (g : MGraph) : List (ℕ × ℕ) :=
  g.edges.foldl
    (fun lab e =>
      match (lab.find? (fun p => p.1 = e.1.1)).map Prod.snd,
            (lab.find? (fun p => p.1 = e.1.2.1)).map Prod.snd with
      | some a, some b => lab.map (fun p => if p.2 = b then (p.1, a) else p)
      | _, _ => lab)
    (g.nodes.map (fun n => (n, n)))

/-- Number of weakly-connected components
(`nx.number_weakly_connected_components`). -/
def numWeaklyConnectedComponents (g : MGraph) : ℕ :=
  ((wccLabels g).map Prod.snd).dedup.length

/-- The consolidation step with its guard: more than 50 weakly-connected
components skips consolidation and keeps the graph unchanged; otherwise
`ox.consolidate_intersections` (embedded as `cons`, its exception as
`Except.error`) runs, and a failure falls back to the unconsolidated
graph. -/
def consolidationStep (cons : MGraph → Except String MGraph) (g : MGraph) : MGraph :=
  if numWeaklyConnectedComponents g > 50 then g
  else
    match cons g with
    | Except.ok g2 => g2
    | Except.error _ => g

/-! ## Concrete instances used for evaluations -/

/-- A ferry segment of length 5000 m (the specification's worked example). -/
def ferryExampleData : AttrMap :=
  [("length_m", Val.n 5000), ("ROADCLASS", Val.s "Ferry")]

/-- A gravel segment with a valid posted speed of 6 km/h: the 0.6 surface
penalty brings the speed to 3.6 km/h, above the code's floor of 1. -/
def gravelExampleData : AttrMap :=
  [("length_m", Val.n 100), ("safe_speed", Val.n 6), ("PAVSURF", Val.s "Gravel")]

/-- A one-way (forward) segment with a two-point geometry. -/
def oneWayExampleData : AttrMap :=
  [("TRAFFICDIR", Val.s "Same Direction"), ("geometry", Val.g [(0, 0), (1, 0)])]

/-- A bidirectional segment with a geometry and an id. -/
def bothExampleData : AttrMap :=
  [("TRAFFICDIR", Val.s "Both Directions"), ("ROADSEGID", Val.n 7),
   ("geometry", Val.g [(0, 0), (2, 1), (3, 3)])]

/-- Two distinct bidirectional segments between the same snapped endpoints
in opposite orientations: segment 1 runs node 0 → node 1, segment 2 runs
node 1 → node 0; cumcount assigns both the key 0. -/
def oppositePairSegs : List Segment :=
  [(0, 1, [("TRAFFICDIR", Val.s "Both Directions"), ("ROADSEGID", Val.n 1),
           ("geometry", Val.g [(0, 0), (1, 1)])]),
   (1, 0, [("TRAFFICDIR", Val.s "Both Directions"), ("ROADSEGID", Val.n 2),
           ("geometry", Val.g [(1, 1), (0, 0)])])]

/-- A small routable graph: 0 → 1 → 2 with lengths 1000 m and 500 m. -/
def sampleGraph : Graph :=
  [((0, 1, 0), [("length", Val.n 1000), ("travel_time", Val.n 2)]),
   ((1, 2, 0), [("length", Val.n 500), ("travel_time", Val.n 1)])]

/-- A deterministic shortest-path function on `sampleGraph`: only the query
(0, 2) has a path. -/
def sampleSp : Query → Option (List ℕ) :=
  fun q => if q = (0, 2) then some [0, 1, 2] else none

/-- Three queries; the middle one's endpoints are absent from the graph. -/
def sampleQueries : List Query := [(0, 2), (5, 6), (0, 2)]

/-- Malformed-query detector for the witness: origin node 5 is not in the
graph. -/
def sampleBad : Query → Bool := fun q => q.1 = 5

/-- Three parallel edges between nodes 0 and 1 with travel times 5, 3, 3:
the minimum is tied between keys 1 and 2. -/
def parallelGraph : Graph :=
  [((0, 1, 0), [("travel_time", Val.n 5)]),
   ((0, 1, 1), [("travel_time", Val.n 3)]),
   ((0, 1, 2), [("travel_time", Val.n 3)])]

/-- A fragmented graph: 51 isolated nodes, hence 51 weakly-connected
components, above the consolidation guard threshold of 50. -/
def fragmentedGraph : MGraph := ⟨List.range 51, []⟩

/-! ## Helper lemmas -/

theorem floor_le_roundHalfEven (q : ℚ) : ⌊q⌋ ≤ roundHalfEven q := by
  simp only [roundHalfEven]
  split_ifs <;> omega

theorem one_le_ite_floor (q : ℚ) : 1 ≤ (if q < 1 then (10 : ℚ) else q) := by
  split_ifs with h
  · norm_num
  · linarith [le_of_not_lt h]

theorem one_le_physicsSpeed (data : AttrMap) : 1 ≤ physicsSpeed data := by
  unfold physicsSpeed
  exact one_le_ite_floor _

theorem one_le_pyRound_one (q : ℚ) (hq : 1 ≤ q) : 1 ≤ pyRound q 1 := by
  have h1 : (10 : ℤ) ≤ ⌊q * 10 ^ 1⌋ := by
    apply Int.le_floor.mpr
    push_cast
    linarith
  have h2 : (10 : ℤ) ≤ roundHalfEven (q * 10 ^ 1) :=
    le_trans h1 (floor_le_roundHalfEven _)
  have h3 : (10 : ℚ) ≤ ((roundHalfEven (q * 10 ^ 1) : ℤ) : ℚ) := by exact_mod_cast h2
  unfold pyRound
  rw [le_div_iff₀ (by positivity)]
  linarith

/-! ## Claim theorems: cost model -/

/-- C1: for every edge, the stored `travel_time` equals
`round(((length/1000)/speed)*60 + ferry_bonus, 3)` minutes, with
`ferry_bonus = 30.0` exactly when the road class is `'Ferry'` and the wait
added after the distance-based time; in particular the `'Ferry'` edge of
length 5000 m gets forced speed 10 km/h and travel time 60.0 minutes. -/
theorem travel_time_formula :
    (∀ (linelen : List (ℚ × ℚ) → ℚ) (data : AttrMap),
      dictGet (physicsAttrs linelen data) "travel_time"
        = some (Val.n (pyRound
            (physicsLength linelen data / 1000 / physicsSpeed data * 60 + ferryBonus data) 3)))
    ∧ dictGet (physicsAttrs (fun _ => 0) ferryExampleData) "travel_time" = some (Val.n 60)
    ∧ dictGet (physicsAttrs (fun _ => 0) ferryExampleData) "speed_kph" = some (Val.n 10) := by
  refine ⟨?_, ?_, ?_⟩
  · intro linelen data
    by_cases h : physicsRoadClass data = "Ferry"
    · simp [physicsAttrs, ferryBonus, dictGet, List.find?, h]
    · simp [physicsAttrs, ferryBonus, dictGet, List.find?, h]
  · simp [ferryExampleData, physicsAttrs, physicsLength, physicsSpeed, physicsRoadClass,
      dictGet, get_val, toNumV, toNum, pyStr, Val.n, Val.s, List.find?, badSurfaces]
    norm_num [pyRound, roundHalfEven]
  · simp [ferryExampleData, physicsAttrs, physicsLength, physicsSpeed, physicsRoadClass,
      dictGet, get_val, toNumV, toNum, pyStr, Val.n, Val.s, List.find?, badSurfaces]
    norm_num [pyRound, roundHalfEven]

/-- C5 counterexample: a posted speed of 3 km/h on an Arterial is raised to
the fixed minimum 10 km/h, not replaced by the Arterial default 60 km/h as
the claim states. -/
theorem speed_validation_counterexample :
    safe_speed (some 3) "Arterial" = 10 ∧ speedDefaults "Arterial" = 60 ∧ (10 : ℚ) ≠ 60 :=
  ⟨by decide, by decide, by norm_num⟩

/-- C5 amended: posted speeds above 130 are treated as missing and replaced
by the class default; posted speeds strictly between 0 and 5 are instead
raised to a fixed minimum of 10 km/h; absent or non-positive speeds get the
class default; in-range speeds are kept. -/
theorem speed_validation_amended :
    ∀ (s : ℚ) (c : String),
      (130 < s → safe_speed (some s) c = speedDefaults c)
      ∧ (0 < s → s < 5 → safe_speed (some s) c = 10)
      ∧ (s ≤ 0 → safe_speed (some s) c = speedDefaults c)
      ∧ (5 ≤ s → s ≤ 130 → safe_speed (some s) c = s)
      ∧ safe_speed none c = speedDefaults c := by
  intro s c
  refine ⟨fun h => ?_, fun h0 h5 => ?_, fun h => ?_, fun h5 h130 => ?_, ?_⟩
  · simp only [safe_speed, Option.getD_some]
    rw [if_pos (by linarith : s > 130)]
    norm_num
  · simp only [safe_speed, Option.getD_some]
    rw [if_neg (by linarith : ¬ s > 130), if_pos (show 0 < s ∧ s < 5 from ⟨h0, h5⟩)]
    norm_num
  · simp only [safe_speed, Option.getD_some]
    rw [if_neg (by linarith : ¬ s > 130),
      if_neg (show ¬ (0 < s ∧ s < 5) from fun hc => absurd hc.1 (by linarith)), if_pos h]
  · simp only [safe_speed, Option.getD_some]
    rw [if_neg (by linarith : ¬ s > 130),
      if_neg (show ¬ (0 < s ∧ s < 5) from fun hc => absurd hc.2 (by linarith)),
      if_neg (by linarith : ¬ s ≤ 0)]
  · simp only [safe_speed, Option.getD_none]
    norm_num

/-- C5 witness: the amended rules evaluated at posted speeds 200 and 3. -/
theorem speed_validation_witness :
    safe_speed (some 200) "Arterial" = 60 ∧ safe_speed (some 3) "Local" = 10 := by
  constructor
  · have h := (speed_validation_amended 200 "Arterial").1 (by norm_num)
    rw [h]; decide
  · exact (speed_validation_amended 3 "Local").2.1 (by norm_num) (by norm_num)

/-- C6 counterexample: a gravel segment with valid posted speed 6 km/h gets
stored speed 3.6 km/h — below the claimed floor of 10. -/
theorem speed_floor_counterexample :
    dictGet (physicsAttrs (fun _ => 0) gravelExampleData) "speed_kph" = some (Val.n (18 / 5))
    ∧ (18 / 5 : ℚ) < 10 := by
  constructor
  · simp [gravelExampleData, physicsAttrs, physicsSpeed, physicsRoadClass, dictGet, get_val,
      toNumV, toNum, pyStr, Val.n, Val.s, List.find?, badSurfaces]
    norm_num [pyRound, roundHalfEven]
  · norm_num

/-- C6 amended: the sanity floor replaces speeds below 1 km/h by 10 km/h,
so the speed used in the travel-time division is always at least 1 km/h
(never zero) and the stored `speed_kph` is at least 1 — but it can be below
10. -/
theorem speed_floor_amended :
    ∀ (linelen : List (ℚ × ℚ) → ℚ) (data : AttrMap),
      1 ≤ physicsSpeed data
      ∧ physicsSpeed data ≠ 0
      ∧ dictGet (physicsAttrs linelen data) "speed_kph"
          = some (Val.n (pyRound (physicsSpeed data) 1))
      ∧ 1 ≤ pyRound (physicsSpeed data) 1 := by
  intro linelen data
  have h1 := one_le_physicsSpeed data
  exact ⟨h1, by linarith, by simp [physicsAttrs, dictGet, List.find?],
    one_le_pyRound_one _ h1⟩

/-- C10: the physics-loop rewrite leaves every edge with exactly the six
attributes length, travel_time, speed_kph, ROADCLASS, PAVSURF, TRAFFICDIR,
in that order, and any other attribute (geometry, length_m, PAVSTATUS,
ROADJURIS, NID, ROADSEGID, ...) is absent afterwards. -/
theorem physics_attribute_frame :
    ∀ (linelen : List (ℚ × ℚ) → ℚ) (data : AttrMap),
      (physicsAttrs linelen data).map Prod.fst
        = ["length", "travel_time", "speed_kph", "ROADCLASS", "PAVSURF", "TRAFFICDIR"]
      ∧ ∀ a : String,
          a ∉ ["length", "travel_time", "speed_kph", "ROADCLASS", "PAVSURF", "TRAFFICDIR"] →
          dictGet (physicsAttrs linelen data) a = none := by
  intro linelen data
  refine ⟨by simp [physicsAttrs], ?_⟩
  intro a ha
  simp only [List.mem_cons, List.not_mem_nil, or_false, not_or] at ha
  obtain ⟨h1, h2, h3, h4, h5, h6⟩ := ha
  simp [physicsAttrs, dictGet, List.find?, Ne.symm h1, Ne.symm h2, Ne.symm h3,
    Ne.symm h4, Ne.symm h5, Ne.symm h6]

/-- C10 witness: on the ferry example, the geometry and the pre-physics
attributes are gone after the rewrite. -/
theorem physics_attribute_frame_witness :
    dictGet (physicsAttrs (fun _ => 0) ferryExampleData) "geometry" = none
    ∧ dictGet (physicsAttrs (fun _ => 0) ferryExampleData) "length_m" = none :=
  ⟨(physics_attribute_frame _ _).2 "geometry" (by decide),
   (physics_attribute_frame _ _).2 "length_m" (by decide)⟩

/-! ## Dictionary lemmas for the directionality resolver -/

theorem dictGet_map_replace (m : AttrMap) (k : String) (v : Val) (a : String) (ha : a ≠ k) :
    dictGet (m.map (fun p => if p.1 = k then (k, v) else p)) a = dictGet m a := by
  induction m with
  | nil => rfl
  | cons p ps ih =>
    simp only [List.map_cons, dictGet] at *
    by_cases hpk : p.1 = k
    · rw [if_pos hpk]
      rw [List.find?_cons_of_neg _ (by simpa using Ne.symm (hpk ▸ ha)),
        List.find?_cons_of_neg _ (by simpa using fun h : p.1 = a => ha ((h ▸ hpk : a = k)))]
      exact ih
    · rw [if_neg hpk]
      by_cases hpa : p.1 = a
      · rw [List.find?_cons_of_pos _ (by simpa using hpa),
          List.find?_cons_of_pos _ (by simpa using hpa)]
      · rw [List.find?_cons_of_neg _ (by simpa using hpa),
          List.find?_cons_of_neg _ (by simpa using hpa)]
        exact ih

theorem dictGet_map_replace_self (m : AttrMap) (k : String) (v : Val)
    (h : m.any (fun p => p.1 = k) = true) :
    dictGet (m.map (fun p => if p.1 = k then (k, v) else p)) k = some v := by
  induction m with
  | nil => simp at h
  | cons p ps ih =>
    simp only [List.map_cons]
    by_cases hpk : p.1 = k
    · rw [if_pos hpk]
      unfold dictGet
      rw [List.find?_cons_of_pos _ (by simp)]
      rfl
    · rw [if_neg hpk]
      unfold dictGet at ih ⊢
      rw [List.find?_cons_of_neg _ (by simpa using hpk)]
      apply ih
      simpa [hpk] using h

theorem any_of_dictGet_some (m : AttrMap) (k : String) (v : Val) (h : dictGet m k = some v) :
    m.any (fun p => p.1 = k) = true := by
  unfold dictGet at h
  rcases Option.map_eq_some'.mp h with ⟨pair, hfind, -⟩
  have hp := List.find?_some (p := fun p : String × Val => decide (p.1 = k)) hfind
  rw [List.any_eq_true]
  exact ⟨pair, List.mem_of_find?_eq_some hfind, by simpa using hp⟩

theorem reverseGeometry_geometry (data : AttrMap) (cs : List (ℚ × ℚ))
    (h : dictGet data "geometry" = some (Val.g cs)) :
    dictGet (reverseGeometry data) "geometry" = some (Val.g cs.reverse) := by
  have hany := any_of_dictGet_some data "geometry" _ h
  unfold reverseGeometry
  rw [h]
  show dictGet (dictSet data "geometry" (Val.scalar (SVal.geom cs.reverse))) "geometry"
      = some (Val.g cs.reverse)
  unfold dictSet
  rw [if_pos hany]
  exact dictGet_map_replace_self data "geometry" _ hany

theorem reverseGeometry_other (data : AttrMap) (a : String) (ha : a ≠ "geometry") :
    dictGet (reverseGeometry data) a = dictGet data a := by
  unfold reverseGeometry
  cases hg : dictGet data "geometry" with
  | none => rfl
  | some v =>
    match v with
    | Val.vlist vs => rfl
    | Val.scalar (SVal.num q) => rfl
    | Val.scalar (SVal.str s) => rfl
    | Val.scalar (SVal.geom cs) =>
      have hany := any_of_dictGet_some data "geometry" _ hg
      show dictGet (dictSet data "geometry" (Val.scalar (SVal.geom cs.reverse))) a = dictGet data a
      unfold dictSet
      rw [if_pos hany]
      exact dictGet_map_replace data "geometry" _ a ha

/-! ## Claim theorems: directionality, topology, consolidation -/

/-- C3: per segment, `Same Direction`/`Positive` emit exactly the forward
edge, `Opposite Direction`/`Negative` emit exactly the `v→u` edge,
everything else (including `Unknown` and unrecognized values) emits both
directions; the bidirectional reverse edge's geometry is the exact reverse
of the forward geometry and all its non-geometry attributes are copied
verbatim. -/
theorem directionality_resolution :
    ∀ (u v k : ℕ) (data : AttrMap),
      ((trafficDirOf data = "Same Direction" ∨ trafficDirOf data = "Positive") →
        resolveDirectionality u v k data = [(u, v, k, data)])
      ∧ ((trafficDirOf data = "Opposite Direction" ∨ trafficDirOf data = "Negative") →
        resolveDirectionality u v k data = [(v, u, k, data)])
      ∧ ((trafficDirOf data = "Both Directions" ∨ trafficDirOf data = "Both"
            ∨ trafficDirOf data = "Unknown"
            ∨ trafficDirOf data ∉ ["Both Directions", "Both", "Unknown", "Same Direction",
                "Positive", "Opposite Direction", "Negative"]) →
        resolveDirectionality u v k data
          = [(u, v, k, data), (v, u, k, reverseGeometry data)])
      ∧ (∀ cs, dictGet data "geometry" = some (Val.g cs) →
          dictGet (reverseGeometry data) "geometry" = some (Val.g cs.reverse))
      ∧ (∀ a, a ≠ "geometry" → dictGet (reverseGeometry data) a = dictGet data a) := by
  intro u v k data
  refine ⟨?_, ?_, ?_, fun cs h => reverseGeometry_geometry data cs h,
    fun a ha => reverseGeometry_other data a ha⟩
  · rintro (h | h) <;> simp [resolveDirectionality, h]
  · rintro (h | h) <;> simp [resolveDirectionality, h]
  · rintro (h | h | h | h)
    · simp [resolveDirectionality, h]
    · simp [resolveDirectionality, h]
    · simp [resolveDirectionality, h]
    · simp only [List.mem_cons, List.not_mem_nil, or_false, not_or] at h
      obtain ⟨h1, h2, h3, h4, h5, h6, h7⟩ := h
      simp [resolveDirectionality, h1, h2, h3, h4, h5, h6, h7]

/-- C3 witness: a `Same Direction` segment emits the forward edge only; a
`Both Directions` segment emits both, with the reverse geometry reversed. -/
theorem directionality_resolution_witness :
    resolveDirectionality 0 1 0 oneWayExampleData = [(0, 1, 0, oneWayExampleData)]
    ∧ resolveDirectionality 0 1 0 bothExampleData
        = [(0, 1, 0, bothExampleData), (1, 0, 0, reverseGeometry bothExampleData)]
    ∧ dictGet (reverseGeometry bothExampleData) "geometry"
        = some (Val.g [(3, 3), (2, 1), (0, 0)]) := by
  refine ⟨(directionality_resolution 0 1 0 oneWayExampleData).1 (Or.inl (by decide)),
    (directionality_resolution 0 1 0 bothExampleData).2.2.1 (Or.inl (by decide)), ?_⟩
  have h := (directionality_resolution 0 1 0 bothExampleData).2.2.2.1
    [(0, 0), (2, 1), (3, 3)] (by decide)
  simpa using h

/-- C7 evaluation at the failing input: two distinct bidirectional segments
between the same endpoints in opposite orientations both get key 0; the
directionality loop emits four directed edges, but the reverse edges
collide with the other segment's forward edges, `add_edge` silently merges
the attribute dictionaries, and the final graph holds only two edges — both
carrying segment 2's identifier, so segment 1's reverse edge data is
overwritten. -/
theorem duplicate_key_overwrite :
    emittedEdgeCount oppositePairSegs = 4
    ∧ (buildDirectedGraph oppositePairSegs).length = 2
    ∧ (buildDirectedGraph oppositePairSegs).map Prod.fst = [(0, 1, 0), (1, 0, 0)]
    ∧ ((buildDirectedGraph oppositePairSegs).find? (fun e => e.1 = (1, 0, 0))).map
        (fun e => dictGet e.2 "ROADSEGID") = some (some (Val.n 2)) :=
  ⟨by decide, by decide, by decide, by decide⟩

/-- C9: with more than 50 weakly-connected components the consolidation
step returns the input graph unchanged, and a consolidation failure also
falls back to the input graph instead of propagating. -/
theorem consolidation_guard :
    ∀ (cons : MGraph → Except String MGraph) (g : MGraph),
      (numWeaklyConnectedComponents g > 50 → consolidationStep cons g = g)
      ∧ (∀ e, cons g = Except.error e → consolidationStep cons g = g) := by
  intro cons g
  constructor
  · intro h
    unfold consolidationStep
    rw [if_pos h]
  · intro e he
    unfold consolidationStep
    split_ifs with h
    · rfl
    · rw [he]

/-- C9 witness: 51 isolated nodes give 51 components, and the guard keeps
the graph unchanged even under a failing consolidator. -/
theorem consolidation_guard_witness :
    numWeaklyConnectedComponents fragmentedGraph > 50
    ∧ consolidationStep (fun _ => Except.error "err") fragmentedGraph = fragmentedGraph :=
  ⟨by decide, (consolidation_guard (fun _ => Except.error "err") fragmentedGraph).1 (by decide)⟩

/-! ## Write-back and chunking lemmas for the batch engine -/

theorem writeBack_cons_none (res : List (Option RouteResult)) (i : ℕ) (is : List ℕ)
    (vs : List (Option RouteResult)) :
    writeBack res (i :: is) (none :: vs) = writeBack res is vs := rfl

theorem writeBack_cons_some (res : List (Option RouteResult)) (i : ℕ) (is : List ℕ)
    (r : RouteResult) (vs : List (Option RouteResult)) :
    writeBack res (i :: is) (some r :: vs) = writeBack (res.set i (some r)) is vs := rfl

theorem length_writeBack :
    ∀ (idxs : List ℕ) (vals res : List (Option RouteResult)),
      (writeBack res idxs vals).length = res.length := by
  intro idxs
  induction idxs with
  | nil => intro vals res; rfl
  | cons i is ih =>
    intro vals res
    cases vals with
    | nil => rfl
    | cons v vs =>
      cases v with
      | none => rw [writeBack_cons_none, ih]
      | some r => rw [writeBack_cons_some, ih, List.length_set]

theorem writeBack_map_get (F : ℕ → Option RouteResult) :
    ∀ (idxs : List ℕ), idxs.Nodup →
      ∀ (res : List (Option RouteResult)) (j : ℕ),
        (writeBack res idxs (idxs.map F))[j]? =
          if j ∈ idxs ∧ (F j).isSome ∧ j < res.length then some (F j) else res[j]? := by
  intro idxs
  induction idxs with
  | nil =>
    intro _ res j
    simp [writeBack]
  | cons i is ih =>
    intro hnd res j
    obtain ⟨hni, hnd'⟩ := List.nodup_cons.mp hnd
    rw [List.map_cons]
    by_cases hji : j = i
    · subst hji
      cases hFi : F j with
      | none =>
        rw [writeBack_cons_none, ih hnd' res j]
        simp [hni, hFi]
      | some r =>
        rw [writeBack_cons_some]
        by_cases hlen : j < res.length
        · rw [ih hnd' (res.set j (some r)) j]
          have h1 : (res.set j (some r))[j]? = some (some r) := List.getElem?_set_self hlen
          simp [hni, hFi, hlen, h1]
        · rw [List.set_eq_of_length_le (le_of_not_lt hlen), ih hnd' res j]
          simp [hni, hFi, hlen]
    · cases hFi : F i with
      | none =>
        rw [writeBack_cons_none, ih hnd' res j]
        simp [List.mem_cons, hji]
      | some r =>
        rw [writeBack_cons_some, ih hnd' (res.set i (some r)) j]
        have h1 : (res.set i (some r))[j]? = res[j]? := List.getElem?_set_ne (Ne.symm hji)
        simp [List.mem_cons, hji, h1, List.length_set]

theorem chunkAt_getElem (c n k t : ℕ) :
    (chunkAt c n k)[t]? = if t < c ∧ k * c + t < n then some (k * c + t) else none := by
  unfold chunkAt
  by_cases ht : t < c
  · rw [List.getElem?_take_of_lt ht, List.getElem?_drop]
    by_cases h2 : k * c + t < n
    · rw [List.getElem?_range h2, if_pos ⟨ht, h2⟩]
    · rw [if_neg (fun hcon => h2 hcon.2), List.getElem?_eq_none_iff.mpr]
      simpa using le_of_not_lt h2
  · rw [if_neg (fun hcon => ht hcon.1), List.getElem?_eq_none_iff.mpr]
    simp only [List.length_take, List.length_drop, List.length_range]
    omega

theorem mem_chunkAt (c n k j : ℕ) (hc : 0 < c) :
    j ∈ chunkAt c n k ↔ j < n ∧ j / c = k := by
  rw [List.mem_iff_getElem?]
  constructor
  · rintro ⟨t, ht⟩
    rw [chunkAt_getElem] at ht
    by_cases hcond : t < c ∧ k * c + t < n
    · rw [if_pos hcond] at ht
      obtain ⟨h1, h2⟩ := hcond
      obtain rfl : k * c + t = j := Option.some.inj ht
      refine ⟨h2, ?_⟩
      rw [mul_comm, Nat.mul_add_div hc, Nat.div_eq_of_lt h1]
      exact Nat.add_zero k
    · rw [if_neg hcond] at ht
      cases ht
  · rintro ⟨hjn, hk⟩
    refine ⟨j % c, ?_⟩
    have h1 : j % c < c := Nat.mod_lt _ hc
    have h2 : k * c + j % c = j := by
      rw [← hk, mul_comm]
      exact Nat.div_add_mod j c
    rw [chunkAt_getElem, if_pos ⟨h1, by omega⟩, h2]

theorem nodup_chunkAt (c n k : ℕ) : (chunkAt c n k).Nodup := by
  unfold chunkAt
  exact ((List.take_sublist _ _).trans (List.drop_sublist _ _)).nodup (List.nodup_range n)

theorem chunkIdx_getElem (c n k : ℕ) :
    (chunkIdx c n)[k]? = if k < numChunks c n then some (chunkAt c n k) else none := by
  unfold chunkIdx
  rw [List.getElem?_map]
  by_cases hk : k < numChunks c n
  · rw [List.getElem?_range hk, if_pos hk]
    rfl
  · rw [if_neg hk, List.getElem?_eq_none_iff.mpr (by simpa using le_of_not_lt hk)]
    rfl

theorem div_lt_numChunks (c n j : ℕ) (hc : 0 < c) (hj : j < n) : j / c < numChunks c n := by
  rw [numChunks, Nat.div_lt_iff_lt_mul hc]
  have h1 := Nat.div_add_mod (n + c - 1) c
  have h2 : (n + c - 1) % c < c := Nat.mod_lt _ hc
  set p := (n + c - 1) / c * c with hp
  have h3 : c * ((n + c - 1) / c) = p := by rw [hp]; ring
  omega

theorem calcChunk_okChunk (g : Graph) (sp : Query → Option (List ℕ)) (l : List Query) :
    calcChunk g (okChunk sp) l = l.map (answer g sp) := by
  simp [calcChunk, okChunk, answer, List.map_map, Function.comp]

theorem calcChunk_badChunk (g : Graph) (sp : Query → Option (List ℕ)) (bad : Query → Bool)
    (l : List Query) :
    calcChunk g (badChunk sp bad) l =
      if l.any bad then l.map (fun _ => none) else l.map (answer g sp) := by
  unfold calcChunk badChunk
  split_ifs with hb
  · simp [hb, List.map_map, Function.comp]
  · simp [hb, answer, List.map_map, Function.comp]

theorem length_chunkStep (g : Graph)
    (spC : List Query → Except Unit (List (Option (List ℕ)))) (c : ℕ) (qs : List Query)
    (acc : List (Option RouteResult)) (k : ℕ) :
    (chunkStep g spC c qs acc k).length = acc.length := by
  unfold chunkStep
  cases h : (chunkIdx c qs.length)[k]? with
  | none => rfl
  | some idxs => exact length_writeBack idxs _ acc

theorem length_foldl_chunkStep (g : Graph)
    (spC : List Query → Except Unit (List (Option (List ℕ)))) (c : ℕ) (qs : List Query) :
    ∀ (ord : List ℕ) (acc : List (Option RouteResult)),
      (ord.foldl (chunkStep g spC c qs) acc).length = acc.length := by
  intro ord
  induction ord with
  | nil => intro acc; rfl
  | cons k rest ih => intro acc; rw [List.foldl_cons, ih, length_chunkStep]

theorem foldl_chunkStep_getElem (g : Graph)
    (spC : List Query → Except Unit (List (Option (List ℕ)))) (c : ℕ) (qs : List Query)
    (F : ℕ → Option RouteResult) (hc : 0 < c)
    (hvals : ∀ k, k < numChunks c qs.length →
      calcChunk g spC ((chunkAt c qs.length k).map (queryAt qs))
        = (chunkAt c qs.length k).map F) :
    ∀ (ord : List ℕ) (acc : List (Option RouteResult)),
      acc.length = qs.length →
      (∀ j, j < qs.length → acc[j]? = some none ∨ acc[j]? = some (F j)) →
      ∀ j, j < qs.length →
        (ord.foldl (chunkStep g spC c qs) acc)[j]?
          = if j / c ∈ ord then some (F j) else acc[j]? := by
  intro ord
  induction ord with
  | nil =>
    intro acc _ _ j _
    simp
  | cons k rest ih =>
    intro acc hlen hacc j hj
    rw [List.foldl_cons]
    have hstep : ∀ j', j' < qs.length →
        (chunkStep g spC c qs acc k)[j']?
          = if j' / c = k ∧ (F j').isSome then some (F j') else acc[j']? := by
      intro j' hj'
      unfold chunkStep
      by_cases hk : k < numChunks c qs.length
      · rw [chunkIdx_getElem, if_pos hk]
        show (writeBack acc (chunkAt c qs.length k)
            (calcChunk g spC ((chunkAt c qs.length k).map (queryAt qs))))[j']? = _
        rw [hvals k hk, writeBack_map_get F _ (nodup_chunkAt c qs.length k)]
        simp only [mem_chunkAt c qs.length k j' hc, hlen]
        by_cases h1 : j' / c = k <;> by_cases h2 : (F j').isSome <;>
          simp [h1, h2, hj']
      · rw [chunkIdx_getElem, if_neg hk]
        show acc[j']? = _
        have hne : j' / c ≠ k :=
          fun hcon => hk (hcon ▸ div_lt_numChunks c qs.length j' hc hj')
        simp [hne]
    have hlen' : (chunkStep g spC c qs acc k).length = qs.length := by
      rw [length_chunkStep, hlen]
    have hacc' : ∀ j', j' < qs.length →
        (chunkStep g spC c qs acc k)[j']? = some none
          ∨ (chunkStep g spC c qs acc k)[j']? = some (F j') := by
      intro j' hj'
      rw [hstep j' hj']
      split_ifs with h
      · right; rfl
      · exact hacc j' hj'
    rw [ih (chunkStep g spC c qs acc k) hlen' hacc' j hj]
    by_cases hrest : j / c ∈ rest
    · rw [if_pos hrest, if_pos (List.mem_cons_of_mem _ hrest)]
    · rw [if_neg hrest, hstep j hj]
      by_cases hjk : j / c = k
      · have hmem : j / c ∈ k :: rest := by rw [hjk]; exact List.mem_cons_self k rest
        by_cases hFs : (F j).isSome
        · simp [hjk, hFs, hmem]
        · have hFn : F j = none := Option.not_isSome_iff_eq_none.mp hFs
          rcases hacc j hj with h | h
          · simp [hjk, hFs, hmem, h, hFn]
          · simp [hjk, hFs, hmem, h]
      · have hmem : j / c ∉ k :: rest :=
          fun hmem => (List.mem_cons.mp hmem).elim hjk hrest
        simp [hjk, hmem]

theorem runBatch_okChunk_eq (g : Graph) (sp : Query → Option (List ℕ)) (c : ℕ)
    (ord : List ℕ) (qs : List Query) (hc : 0 < c)
    (hord : ord.Perm (List.range (numChunks c qs.length))) :
    runBatch g (okChunk sp) c ord qs = qs.map (answer g sp) := by
  apply List.ext_getElem?
  intro j
  by_cases hj : j < qs.length
  · unfold runBatch
    rw [foldl_chunkStep_getElem g (okChunk sp) c qs (fun i => answer g sp (queryAt qs i)) hc
      (fun k _ => by rw [calcChunk_okChunk, List.map_map]; rfl) ord (qs.map fun _ => none)
      (by simp)
      (fun j' hj' => Or.inl (by rw [List.getElem?_map, List.getElem?_eq_getElem hj']; rfl))
      j hj]
    have hmem : j / c ∈ ord :=
      hord.mem_iff.mpr (List.mem_range.mpr (div_lt_numChunks c qs.length j hc hj))
    rw [if_pos hmem, List.getElem?_map, List.getElem?_eq_getElem hj]
    simp [queryAt, List.getElem?_eq_getElem hj]
  · have h1 : qs.length ≤ j := le_of_not_lt hj
    have h2 : (runBatch g (okChunk sp) c ord qs).length = qs.length := by
      unfold runBatch
      rw [length_foldl_chunkStep, List.length_map]
    rw [List.getElem?_eq_none_iff.mpr (by omega),
      List.getElem?_eq_none_iff.mpr (by simpa using h1)]

/-! ## Claim theorems: batch routing engine -/

/-- C2: batch routing is deterministic — for any chunk size and any worker
completion order the index-addressed write-back produces exactly the
per-query answers in submission order, so a query's result is identical
across permuted submissions, chunkings, and completion orders. -/
theorem batch_routing_deterministic (g : Graph) (sp : Query → Option (List ℕ))
    (c c' : ℕ) (ord ord' : List ℕ) (qs qs' : List Query)
    (hc : 0 < c) (hc' : 0 < c')
    (hord : ord.Perm (List.range (numChunks c qs.length)))
    (hord' : ord'.Perm (List.range (numChunks c' qs'.length)))
    (hperm : qs'.Perm qs) :
    runBatch g (okChunk sp) c ord qs = qs.map (answer g sp)
    ∧ runBatch g (okChunk sp) c' ord' qs' = qs'.map (answer g sp)
    ∧ ∀ (i j : ℕ) (q : Query), qs[i]? = some q → qs'[j]? = some q →
        (runBatch g (okChunk sp) c ord qs)[i]?
          = (runBatch g (okChunk sp) c' ord' qs')[j]? := by
  refine ⟨runBatch_okChunk_eq g sp c ord qs hc hord,
    runBatch_okChunk_eq g sp c' ord' qs' hc' hord', ?_⟩
  intro i j q hi hj
  rw [runBatch_okChunk_eq g sp c ord qs hc hord,
    runBatch_okChunk_eq g sp c' ord' qs' hc' hord',
    List.getElem?_map, List.getElem?_map, hi, hj]

/-- C2 witness: three queries under chunk size 2 with reversed completion
order, and a permuted submission under chunk size 3, both equal the mapped
per-query answers. -/
theorem batch_routing_deterministic_witness :
    runBatch sampleGraph (okChunk sampleSp) 2 [1, 0] sampleQueries
      = sampleQueries.map (answer sampleGraph sampleSp)
    ∧ runBatch sampleGraph (okChunk sampleSp) 3 [0] [(5, 6), (0, 2), (0, 2)]
      = [(5, 6), (0, 2), (0, 2)].map (answer sampleGraph sampleSp) := by
  have h := batch_routing_deterministic sampleGraph sampleSp 2 3 [1, 0] [0]
    sampleQueries [(5, 6), (0, 2), (0, 2)] (by norm_num) (by norm_num)
    (by decide) (by decide) (by decide)
  exact ⟨h.1, h.2.1⟩

/-- C4: a chunk whose shortest-path call raises yields null results exactly
for that chunk's queries — the batch keeps its full length, every other
chunk's queries are answered normally, and with no failing chunk (in
particular for plain no-path queries) the output is exactly the per-query
answers, so siblings are unaffected. -/
theorem batch_failure_isolation (g : Graph) (sp : Query → Option (List ℕ))
    (bad : Query → Bool) (c : ℕ) (ord : List ℕ) (qs : List Query) (hc : 0 < c)
    (hord : ord.Perm (List.range (numChunks c qs.length))) :
    (runBatch g (badChunk sp bad) c ord qs).length = qs.length
    ∧ (∀ j, j < qs.length →
        (((chunkAt c qs.length (j / c)).map (queryAt qs)).any bad = true →
          (runBatch g (badChunk sp bad) c ord qs)[j]? = some none)
        ∧ (((chunkAt c qs.length (j / c)).map (queryAt qs)).any bad = false →
          (runBatch g (badChunk sp bad) c ord qs)[j]?
            = some (answer g sp (queryAt qs j))))
    ∧ runBatch g (badChunk sp (fun _ => false)) c ord qs = qs.map (answer g sp) := by
  have hF : ∀ k, k < numChunks c qs.length →
      calcChunk g (badChunk sp bad) ((chunkAt c qs.length k).map (queryAt qs))
        = (chunkAt c qs.length k).map (fun i =>
            if ((chunkAt c qs.length (i / c)).map (queryAt qs)).any bad then none
            else answer g sp (queryAt qs i)) := by
    intro k hk
    rw [calcChunk_badChunk]
    by_cases hb : ((chunkAt c qs.length k).map (queryAt qs)).any bad
    · rw [if_pos hb, List.map_map]
      apply List.map_congr_left
      intro i hi
      have hik : i / c = k := ((mem_chunkAt c qs.length k i hc).mp hi).2
      simp [Function.comp, hik, hb]
    · rw [if_neg hb, List.map_map]
      apply List.map_congr_left
      intro i hi
      have hik : i / c = k := ((mem_chunkAt c qs.length k i hc).mp hi).2
      simp [Function.comp, hik, hb]
  have hget : ∀ j, j < qs.length →
      (runBatch g (badChunk sp bad) c ord qs)[j]?
        = some (if ((chunkAt c qs.length (j / c)).map (queryAt qs)).any bad then none
            else answer g sp (queryAt qs j)) := by
    intro j hj
    unfold runBatch
    rw [foldl_chunkStep_getElem g (badChunk sp bad) c qs _ hc hF ord (qs.map fun _ => none)
      (by simp)
      (fun j' hj' => Or.inl (by rw [List.getElem?_map, List.getElem?_eq_getElem hj']; rfl))
      j hj]
    rw [if_pos (hord.mem_iff.mpr (List.mem_range.mpr (div_lt_numChunks c qs.length j hc hj)))]
  refine ⟨?_, ?_, ?_⟩
  · unfold runBatch
    rw [length_foldl_chunkStep, List.length_map]
  · intro j hj
    constructor
    · intro hb
      rw [hget j hj, hb]
      rfl
    · intro hb
      rw [hget j hj, hb]
      rfl
  · have hbc : badChunk sp (fun _ => false) = okChunk sp := by
      funext l
      simp [badChunk, okChunk]
    rw [hbc]
    exact runBatch_okChunk_eq g sp c ord qs hc
      (by simpa using hord)

/-- C4 witness: with queries [(0,2), (5,6), (0,2)] in chunks of two and a
worker that raises on origin node 5, queries 0 and 1 (the raising worker's
chunk) are null while query 2 still gets its answer. -/
theorem batch_failure_isolation_witness :
    (runBatch sampleGraph (badChunk sampleSp sampleBad) 2 [1, 0] sampleQueries)[0]?
      = some none
    ∧ (runBatch sampleGraph (badChunk sampleSp sampleBad) 2 [1, 0] sampleQueries)[2]?
      = some (answer sampleGraph sampleSp (0, 2)) := by
  have h := batch_failure_isolation sampleGraph sampleSp sampleBad 2 [1, 0] sampleQueries
    (by norm_num) (by decide)
  refine ⟨(h.2.1 0 (by decide)).1 (by decide), ?_⟩
  have h2 := (h.2.1 2 (by decide)).2 (by decide)
  have hq : queryAt sampleQueries 2 = (0, 2) := by decide
  rw [hq] at h2
  exact h2

/-! ## Python min semantics and parallel-edge selection -/

theorem pyMin_foldl_spec (f : α → WithTop ℚ) :
    ∀ (l : List α) (a : α),
      (l.foldl (fun b y => if f y < f b then y else b) a = a
          ∧ ∀ j (hj : j < l.length), f a ≤ f (l.get ⟨j, hj⟩))
      ∨ (∃ i, ∃ hi : i < l.length,
          l.foldl (fun b y => if f y < f b then y else b) a = l.get ⟨i, hi⟩
          ∧ f (l.get ⟨i, hi⟩) < f a
          ∧ (∀ j (hj : j < l.length), f (l.get ⟨i, hi⟩) ≤ f (l.get ⟨j, hj⟩))
          ∧ ∀ j (hj : j < i), f (l.get ⟨i, hi⟩) < f (l.get ⟨j, lt_trans hj hi⟩)) := by
  intro l
  induction l with
  | nil =>
    intro a
    left
    exact ⟨rfl, fun j hj => absurd hj (by simp)⟩
  | cons y ys ih =>
    intro a
    rw [List.foldl_cons]
    by_cases hya : f y < f a
    · rw [if_pos hya]
      rcases ih y with ⟨heq, hall⟩ | ⟨i, hi, heq, hlt, hall, hfirst⟩
      · right
        refine ⟨0, by simp, by simpa using heq, by simpa using hya, ?_, ?_⟩
        · intro j hj
          cases j with
          | zero => exact le_refl _
          | succ j' =>
            have := hall j' (by simpa using hj)
            simpa using this
        · intro j hj
          exact absurd hj (Nat.not_lt_zero j)
      · right
        refine ⟨i + 1, by simpa using hi, by simpa using heq, ?_, ?_, ?_⟩
        · simpa using lt_trans hlt hya
        · intro j hj
          cases j with
          | zero => simpa using le_of_lt hlt
          | succ j' =>
            have := hall j' (by simpa using hj)
            simpa using this
        · intro j hj
          cases j with
          | zero => simpa using hlt
          | succ j' =>
            have := hfirst j' (by omega)
            simpa using this
    · rw [if_neg hya]
      have hay : f a ≤ f y := le_of_not_lt hya
      rcases ih a with ⟨heq, hall⟩ | ⟨i, hi, heq, hlt, hall, hfirst⟩
      · left
        refine ⟨heq, ?_⟩
        intro j hj
        cases j with
        | zero => simpa using hay
        | succ j' =>
          have := hall j' (by simpa using hj)
          simpa using this
      · right
        refine ⟨i + 1, by simpa using hi, by simpa using heq, by simpa using hlt, ?_, ?_⟩
        · intro j hj
          cases j with
          | zero => simpa using le_of_lt (lt_of_lt_of_le hlt hay)
          | succ j' =>
            have := hall j' (by simpa using hj)
            simpa using this
        · intro j hj
          cases j with
          | zero => simpa using lt_of_lt_of_le hlt hay
          | succ j' =>
            have := hfirst j' (by omega)
            simpa using this

/-- C8: when the representative parallel edge between an ordered node pair
exists, it is an element of the parallel-edge list whose travel-time key is
minimal, and it is the first-encountered edge attaining that minimum: every
earlier parallel edge has a strictly larger travel-time key. -/
theorem parallel_edge_selection (g : Graph) (u v : ℕ) (e : ℕ × AttrMap)
    (h : bestEdge g u v = some e) :
    ∃ i, ∃ hi : i < (edgesBetween g u v).length,
      (edgesBetween g u v).get ⟨i, hi⟩ = e
      ∧ (∀ j (hj : j < (edgesBetween g u v).length),
          ttKey e.2 ≤ ttKey ((edgesBetween g u v).get ⟨j, hj⟩).2)
      ∧ ∀ j (hj : j < i), ttKey e.2 < ttKey ((edgesBetween g u v).get ⟨j, lt_trans hj hi⟩).2 := by
  unfold bestEdge pyMin at h
  cases hL : edgesBetween g u v with
  | nil => rw [hL] at h; cases h
  | cons x xs =>
    rw [hL] at h
    have he : xs.foldl (fun b y => if ttKey y.2 < ttKey b.2 then y else b) x = e :=
      Option.some.inj h
    rcases pyMin_foldl_spec (fun p => ttKey p.2) xs x with ⟨heq, hall⟩ |
      ⟨i, hi, heq, hlt, hall, hfirst⟩
    · obtain rfl : x = e := heq ▸ he
      refine ⟨0, by simp, by simp, ?_, ?_⟩
      · intro j hj
        cases j with
        | zero => exact le_refl _
        | succ j' =>
          have := hall j' (by simpa using hj)
          simpa using this
      · intro j hj
        exact absurd hj (Nat.not_lt_zero j)
    · obtain rfl : xs.get ⟨i, hi⟩ = e := heq ▸ he
      refine ⟨i + 1, by simpa using hi, by simp, ?_, ?_⟩
      · intro j hj
        cases j with
        | zero => simpa using le_of_lt hlt
        | succ j' =>
          have := hall j' (by simpa using hj)
          simpa using this
      · intro j hj
        cases j with
        | zero => simpa using hlt
        | succ j' =>
          have := hfirst j' (by omega)
          simpa using this

/-- C8 witness: among three parallel edges with travel times 5, 3, 3 the
engine picks key 1 — the minimal travel time, and the first of the two tied
edges. -/
theorem parallel_edge_selection_witness :
    bestEdge parallelGraph 0 1 = some (1, [("travel_time", Val.n 3)])
    ∧ ∃ i, ∃ hi : i < (edgesBetween parallelGraph 0 1).length,
        (edgesBetween parallelGraph 0 1).get ⟨i, hi⟩ = (1, [("travel_time", Val.n 3)])
        ∧ (∀ j (hj : j < (edgesBetween parallelGraph 0 1).length),
            ttKey (1, [("travel_time", Val.n 3)]).2
              ≤ ttKey ((edgesBetween parallelGraph 0 1).get ⟨j, hj⟩).2)
        ∧ ∀ j (hj : j < i),
            ttKey (1, [("travel_time", Val.n 3)]).2
              < ttKey ((edgesBetween parallelGraph 0 1).get ⟨j, lt_trans hj hi⟩).2 := by
  have h : bestEdge parallelGraph 0 1 = some (1, [("travel_time", Val.n 3)]) := by decide
  exact ⟨h, parallel_edge_selection parallelGraph 0 1 _ h⟩

end StreetRouting
